import Mathlib

/-!
Verification of the Saved-Items Store of the NeuroScout repository
(`src/services/storage.ts`), a CRUD wrapper over the browser's
`localStorage` holding a JSON-serialized list of `ProjectIdea` records
under the single key `neuroscout_saved_projects`.

The embedding models:
- `ProjectIdea` (from `src/types.ts`) with all of its fields;
- the parsed form of the stored string as a JSON value (`Json`), since
  `getSavedProjects` returns `JSON.parse(data)` without any validation;
- the adapter state (`Storage`): the raw content under the key together
  with flags saying whether `localStorage.getItem` / `localStorage.setItem`
  throw;
- the four operations `getSavedProjects`, `saveProject`, `removeProject`,
  `isProjectSaved`, including the JavaScript dynamic semantics of the
  callbacks `p => p.id === id` / `p => p.id !== id` (property access on
  `null` throws a TypeError; `.some` / `.filter` on a non-array value
  throws a TypeError).  A thrown exception is modelled as `Except.error ()`.
-/

namespace NeuroScout

/-- `DifficultyLevel` string enum from `src/types.ts`. -/
inductive DifficultyLevel where
  | Beginner
  | Intermediate
  | Advanced
deriving DecidableEq, Repr

/-- The `ProjectIdea` interface from `src/types.ts`. -/
structure ProjectIdea where
  id : String
  title : String
  oneLiner : String
  description : String
  difficulty : DifficultyLevel
  domain : String
  keyFeatures : List String
  techStack : List String
deriving DecidableEq, Repr

/-- A JSON value: the possible results of `JSON.parse` on the stored string. -/
inductive Json where
  | null
  | bool (b : Bool)
  | num (n : Int)
  | str (s : String)
  | arr (elems : List Json)
  | obj (fields : List (String × Json))

/-- The raw content under the storage key, classified by how
`localStorage.getItem` + `JSON.parse` see it. -/
inductive RawStored where
  | absent
  /-- the stored string is `""`, which is falsy in JavaScript. -/
  | emptyStr
  /-- a stored string on which `JSON.parse` throws. -/
  | unparsable
  /-- a stored string that `JSON.parse` parses to `v`. -/
  | parsed (v : Json)

/-- The persistence-adapter state: the raw value under the fixed key, plus
whether `localStorage.getItem` / `localStorage.setItem` currently throw
(storage disabled, quota exceeded, ...). -/
structure Storage where
  raw : RawStored
  readFails : Bool
  writeFails : Bool

/-- `getSavedProjects` from `src/services/storage.ts`:
`data ? JSON.parse(data) : []` inside a `try` that returns `[]` on any
exception.  Note the parse result is returned unvalidated. -/
def getSavedProjects (s : Storage) : Json :=
  if s.readFails then Json.arr []
  else
    match s.raw with
    | RawStored.absent => Json.arr []
    | RawStored.emptyStr => Json.arr []
    | RawStored.unparsable => Json.arr []
    | RawStored.parsed v => v

/-- JavaScript evaluation of the callback body `p.id === id` on one element
`p` of the parsed array: throws a TypeError when `p` is `null`; otherwise
`p.id` is the `"id"` property of an object (or `undefined`), and strict
equality with the string `id` holds iff that property is the string `id`. -/
def idMatches (id : String) (p : Json) : Except Unit Bool :=
  match p with
  | Json.null => Except.error ()
  | Json.obj fields =>
      match fields.lookup "id" with
      | some (Json.str s) => Except.ok (s == id)
      | _ => Except.ok false
  | _ => Except.ok false

/-- JavaScript `elems.some(p => p.id === id)` over the elements of a parsed
array: short-circuits on the first match, propagates a callback TypeError. -/
def jsSomeIdEq (id : String) : List Json → Except Unit Bool
  | [] => Except.ok false
  | p :: rest =>
      match idMatches id p with
      | Except.error e => Except.error e
      | Except.ok true => Except.ok true
      | Except.ok false => jsSomeIdEq id rest

/-- JavaScript `elems.filter(p => p.id !== id)`: keeps the elements whose
`id` property is not strictly equal to `id`, propagates a callback
TypeError. -/
def jsFilterIdNe (id : String) : List Json → Except Unit (List Json)
  | [] => Except.ok []
  | p :: rest =>
      match idMatches id p with
      | Except.error e => Except.error e
      | Except.ok b =>
          match jsFilterIdNe id rest with
          | Except.error e => Except.error e
          | Except.ok kept => Except.ok (if b then kept else p :: kept)

/-- String value of a `DifficultyLevel` enum member (`src/types.ts`). -/
def difficultyToString : DifficultyLevel → String
  | DifficultyLevel.Beginner => "Beginner"
  | DifficultyLevel.Intermediate => "Intermediate"
  | DifficultyLevel.Advanced => "Advanced"

/-- `JSON.stringify` image of one `ProjectIdea`: the JSON object with its
eight fields, in interface order. -/
def encodeItem (i : ProjectIdea) : Json :=
  Json.obj
    [ ("id", Json.str i.id)
    , ("title", Json.str i.title)
    , ("oneLiner", Json.str i.oneLiner)
    , ("description", Json.str i.description)
    , ("difficulty", Json.str (difficultyToString i.difficulty))
    , ("domain", Json.str i.domain)
    , ("keyFeatures", Json.arr (i.keyFeatures.map Json.str))
    , ("techStack", Json.arr (i.techStack.map Json.str)) ]

/-- `saveProject` from `src/services/storage.ts`.  Returns the boolean
result and the adapter state afterwards.  A non-array parse result makes
`saved.some` throw, which the `catch` turns into `false` with no write; a
`setItem` failure is caught the same way. -/
def saveProject (s : Storage) (idea : ProjectIdea) : Bool × Storage :=
  match getSavedProjects s with
  | Json.arr elems =>
      match jsSomeIdEq idea.id elems with
      | Except.error _ => (false, s)
      | Except.ok true => (false, s)
      | Except.ok false =>
          if s.writeFails then (false, s)
          else (true, { s with raw := RawStored.parsed (Json.arr (encodeItem idea :: elems)) })
  | _ => (false, s)

/-- `removeProject` from `src/services/storage.ts`: filters the current
array and writes the result unconditionally; any exception (non-array
parse result, callback TypeError, `setItem` failure) is caught, leaving
the state unchanged. -/
def removeProject (s : Storage) (id : String) : Storage :=
  match getSavedProjects s with
  | Json.arr elems =>
      match jsFilterIdNe id elems with
      | Except.error _ => s
      | Except.ok kept =>
          if s.writeFails then s
          else { s with raw := RawStored.parsed (Json.arr kept) }
  | _ => s

/-- `isProjectSaved` from `src/services/storage.ts`.  Unlike the other three
operations it has NO `try`/`catch`: when `getSavedProjects` returns a
non-array value, or the array holds a `null` before the first match,
`saved.some(...)` throws a TypeError that propagates to the caller
(`Except.error ()`). -/
def isProjectSaved (s : Storage) (id : String) : Except Unit Bool :=
  match getSavedProjects s with
  | Json.arr elems => jsSomeIdEq id elems
  | _ => Except.error ()

/-- Reading a parsed JSON value as a string field, the way the UI layer
consumes the unvalidated parse result. -/
def asString : Json → Option String
  | Json.str s => some s
  | _ => none

/-- Reading a list of parsed JSON values as strings, failing if any is not
a string. -/
def asStrings : List Json → Option (List String)
  | [] => some []
  | v :: rest =>
      (asString v).bind fun s => (asStrings rest).bind fun ss => some (s :: ss)

/-- Reading a parsed JSON value as a string array field. -/
def asStringList : Json → Option (List String)
  | Json.arr xs => asStrings xs
  | _ => none

/-- Inverse of `difficultyToString` on the three enum strings. -/
def difficultyFromString (s : String) : Option DifficultyLevel :=
  if s = "Beginner" then some DifficultyLevel.Beginner
  else if s = "Intermediate" then some DifficultyLevel.Intermediate
  else if s = "Advanced" then some DifficultyLevel.Advanced
  else none

/-- Reading one parsed JSON value back as a `ProjectIdea` record: the
deserialized form of an Item, used to state the lossless round-trip of
the serialized collection. -/
def decodeItem : Json → Option ProjectIdea
  | Json.obj fields => do
      let id ← (fields.lookup "id").bind asString
      let title ← (fields.lookup "title").bind asString
      let oneLiner ← (fields.lookup "oneLiner").bind asString
      let descr ← (fields.lookup "description").bind asString
      let difficulty ← ((fields.lookup "difficulty").bind asString).bind difficultyFromString
      let domain ← (fields.lookup "domain").bind asString
      let keyFeatures ← (fields.lookup "keyFeatures").bind asStringList
      let techStack ← (fields.lookup "techStack").bind asStringList
      pure ⟨id, title, oneLiner, descr, difficulty, domain, keyFeatures, techStack⟩
  | _ => none

/-- Reading a list of parsed JSON values back as Items, failing if any
element is not a well-formed Item object. -/
def decodeItemList : List Json → Option (List ProjectIdea)
  | [] => some []
  | v :: rest =>
      (decodeItem v).bind fun i => (decodeItemList rest).bind fun is => some (i :: is)

/-- Reading a parsed JSON value back as an ordered sequence of Items. -/
def decodeItems : Json → Option (List ProjectIdea)
  | Json.arr xs => decodeItemList xs
  | _ => none

/-- Pure (never-throwing) observer: does the JSON value `p` have an `"id"`
property strict-equal to the string `id`?  Used to count id-matching
entries of the persisted collection. -/
def idMatchB (p : Json) (id : String) : Bool :=
  match p with
  | Json.obj fields =>
      match fields.lookup "id" with
      | some (Json.str s) => s == id
      | _ => false
  | _ => false

/-- The elements of the JSON array persisted under the storage key (empty
when the key does not hold a parsed array). -/
def persistedElems (s : Storage) : List Json :=
  match s.raw with
  | RawStored.parsed (Json.arr elems) => elems
  | _ => []

/-- Store states reachable from the initially-absent key (empty collection)
by any sequence of `saveProject` / `removeProject` calls, with the adapter
allowed to start failing or recover between operations. -/
inductive Reachable : Storage → Prop where
  | init (rf wf : Bool) : Reachable ⟨RawStored.absent, rf, wf⟩
  | add (s : Storage) (idea : ProjectIdea) (rf wf : Bool) :
      Reachable s → Reachable ⟨((saveProject s idea).2).raw, rf, wf⟩
  | rem (s : Storage) (id : String) (rf wf : Bool) :
      Reachable s → Reachable ⟨(removeProject s id).raw, rf, wf⟩

/-- Invariant of the persisted raw value: either the key is still absent,
or it holds a JSON array of encoded Items with pairwise-distinct ids. -/
def GoodRaw (r : RawStored) : Prop :=
  r = RawStored.absent ∨
    ∃ items : List ProjectIdea,
      r = RawStored.parsed (Json.arr (items.map encodeItem)) ∧
      (items.map ProjectIdea.id).Nodup

/-- A concrete Item, for witnesses. -/
def sampleA : ProjectIdea :=
  { id := "p1", title := "X", oneLiner := "x", description := "xx"
  , difficulty := DifficultyLevel.Beginner, domain := "nlp"
  , keyFeatures := ["f1"], techStack := ["python"] }

/-- A second concrete Item with a different id, for witnesses. -/
def sampleB : ProjectIdea :=
  { id := "p2", title := "Y", oneLiner := "y", description := "yy"
  , difficulty := DifficultyLevel.Advanced, domain := "cv"
  , keyFeatures := [], techStack := [] }

/-- The store state before any operation: key absent, adapter healthy. -/
def emptyStore : Storage := ⟨RawStored.absent, false, false⟩

theorem idMatches_encodeItem (id : String) (i : ProjectIdea) :
    idMatches id (encodeItem i) = Except.ok (i.id == id) := by
  simp [idMatches, encodeItem, List.lookup]

theorem idMatchB_encodeItem (i : ProjectIdea) (id : String) :
    idMatchB (encodeItem i) id = (i.id == id) := by
  simp [idMatchB, encodeItem, List.lookup]

theorem jsSomeIdEq_encoded (id : String) (items : List ProjectIdea) :
    jsSomeIdEq id (items.map encodeItem)
      = Except.ok (items.any (fun i => i.id == id)) := by
  induction items with
  | nil => rfl
  | cons i rest ih =>
      cases h : i.id == id with
      | true => simp [jsSomeIdEq, idMatches_encodeItem, h]
      | false => simp [jsSomeIdEq, idMatches_encodeItem, h, ih]

theorem jsFilterIdNe_encoded (id : String) (items : List ProjectIdea) :
    jsFilterIdNe id (items.map encodeItem)
      = Except.ok ((items.filter (fun i => i.id != id)).map encodeItem) := by
  induction items with
  | nil => rfl
  | cons i rest ih =>
      cases h : i.id == id with
      | true => simp [jsFilterIdNe, idMatches_encodeItem, h, ih, List.filter_cons, bne]
      | false => simp [jsFilterIdNe, idMatches_encodeItem, h, ih, List.filter_cons, bne]

theorem any_id_eq_false_iff (id : String) (items : List ProjectIdea) :
    (items.any (fun i => i.id == id) = false) ↔ id ∉ items.map ProjectIdea.id := by
  simp [List.any_eq_false, List.mem_map]

theorem countP_idMatchB_encoded (items : List ProjectIdea) (id : String) :
    ((items.map encodeItem).countP (fun p => idMatchB p id))
      = (items.map ProjectIdea.id).count id := by
  rw [List.countP_map, List.count_eq_countP, List.countP_map]
  congr 1

theorem goodRaw_saveProject (s : Storage) (idea : ProjectIdea)
    (h : GoodRaw s.raw) : GoodRaw ((saveProject s idea).2.raw) := by
  by_cases hr : s.readFails
  · have hg : getSavedProjects s = Json.arr [] := by simp [getSavedProjects, hr]
    by_cases hw : s.writeFails
    · simpa [saveProject, hg, jsSomeIdEq, hw] using h
    · simp [saveProject, hg, jsSomeIdEq, hw]
      right
      exact ⟨[idea], rfl, by simp⟩
  · rcases h with habs | ⟨items, hpar, hnd⟩
    · have hg : getSavedProjects s = Json.arr [] := by simp [getSavedProjects, hr, habs]
      by_cases hw : s.writeFails
      · simpa [saveProject, hg, jsSomeIdEq, hw] using Or.inl habs
      · simp [saveProject, hg, jsSomeIdEq, hw]
        right
        exact ⟨[idea], rfl, by simp⟩
    · have hg : getSavedProjects s = Json.arr (items.map encodeItem) := by
        simp [getSavedProjects, hr, hpar]
      cases ha : items.any (fun i => i.id == idea.id) with
      | true =>
          simp [saveProject, hg, jsSomeIdEq_encoded, ha]
          right
          exact ⟨items, hpar, hnd⟩
      | false =>
          by_cases hw : s.writeFails
          · simp [saveProject, hg, jsSomeIdEq_encoded, ha, hw]
            right
            exact ⟨items, hpar, hnd⟩
          · simp [saveProject, hg, jsSomeIdEq_encoded, ha, hw]
            right
            refine ⟨idea :: items, by simp, ?_⟩
            simp only [List.map_cons, List.nodup_cons]
            exact ⟨(any_id_eq_false_iff idea.id items).1 ha, hnd⟩

theorem goodRaw_removeProject (s : Storage) (id : String)
    (h : GoodRaw s.raw) : GoodRaw ((removeProject s id).raw) := by
  by_cases hr : s.readFails
  · have hg : getSavedProjects s = Json.arr [] := by simp [getSavedProjects, hr]
    by_cases hw : s.writeFails
    · simpa [removeProject, hg, jsFilterIdNe, hw] using h
    · simp [removeProject, hg, jsFilterIdNe, hw]
      right
      exact ⟨[], rfl, by simp⟩
  · rcases h with habs | ⟨items, hpar, hnd⟩
    · have hg : getSavedProjects s = Json.arr [] := by simp [getSavedProjects, hr, habs]
      by_cases hw : s.writeFails
      · simpa [removeProject, hg, jsFilterIdNe, hw] using Or.inl habs
      · simp [removeProject, hg, jsFilterIdNe, hw]
        right
        exact ⟨[], rfl, by simp⟩
    · have hg : getSavedProjects s = Json.arr (items.map encodeItem) := by
        simp [getSavedProjects, hr, hpar]
      by_cases hw : s.writeFails
      · simp [removeProject, hg, jsFilterIdNe_encoded, hw]
        right
        exact ⟨items, hpar, hnd⟩
      · simp [removeProject, hg, jsFilterIdNe_encoded, hw]
        right
        refine ⟨items.filter (fun i => i.id != id), rfl, ?_⟩
        exact List.Nodup.sublist (List.Sublist.map ProjectIdea.id (List.filter_sublist items)) hnd

theorem reachable_goodRaw (s : Storage) (h : Reachable s) : GoodRaw s.raw := by
  induction h with
  | init rf wf => exact Or.inl rfl
  | add s idea rf wf _ ih => exact goodRaw_saveProject s idea ih
  | rem s id rf wf _ ih => exact goodRaw_removeProject s id ih

theorem asStrings_map_str (l : List String) :
    asStrings (l.map Json.str) = some l := by
  induction l with
  | nil => rfl
  | cons s rest ih => simp [asStrings, asString, ih]

theorem difficultyFromString_toString (d : DifficultyLevel) :
    difficultyFromString (difficultyToString d) = some d := by
  cases d <;> simp [difficultyFromString, difficultyToString]

theorem decodeItem_encodeItem (i : ProjectIdea) :
    decodeItem (encodeItem i) = some i := by
  cases i with
  | mk id title oneLiner descr difficulty domain keyFeatures techStack =>
      simp [decodeItem, encodeItem, List.lookup, asString, asStringList,
        asStrings_map_str, difficultyFromString_toString]

theorem decodeItemList_encoded (items : List ProjectIdea) :
    decodeItemList (items.map encodeItem) = some items := by
  induction items with
  | nil => rfl
  | cons i rest ih => simp [decodeItemList, decodeItem_encodeItem, ih]

theorem decodeItems_encoded (items : List ProjectIdea) :
    decodeItems (Json.arr (items.map encodeItem)) = some items := by
  simp [decodeItems, decodeItemList_encoded]

theorem any_id_eq_decide_mem (id : String) (items : List ProjectIdea) :
    items.any (fun i => i.id == id) = decide (id ∈ items.map ProjectIdea.id) := by
  by_cases h : id ∈ items.map ProjectIdea.id
  · rw [decide_eq_true h]
    rcases List.mem_map.1 h with ⟨i, hi, hid⟩
    exact List.any_eq_true.2 ⟨i, hi, by simp [hid]⟩
  · rw [decide_eq_false h]
    exact (any_id_eq_false_iff id items).2 h

/-- C1: For every store state reachable from the empty collection by any
sequence of add and remove operations, the persisted collection contains
at most one Item with any given id. -/
theorem c1_at_most_one_item_per_id (s : Storage) (h : Reachable s) (id : String) :
    (persistedElems s).countP (fun p => idMatchB p id) ≤ 1 := by
  rcases reachable_goodRaw s h with habs | ⟨items, hpar, hnd⟩
  · simp [persistedElems, habs]
  · simp only [persistedElems, hpar, countP_idMatchB_encoded]
    exact List.nodup_iff_count_le_one.1 hnd id

/-- Witness for C1 at the concrete state reached by `add(sampleA)` from the
empty collection. -/
theorem c1_at_most_one_item_per_id_witness :
    (persistedElems ⟨((saveProject emptyStore sampleA).2).raw, false, false⟩).countP
        (fun p => idMatchB p "p1") ≤ 1 :=
  c1_at_most_one_item_per_id _
    (Reachable.add emptyStore sampleA false false (Reachable.init false false)) "p1"

theorem getSavedProjects_parsed (s : Storage) (v : Json) (hr : s.readFails = false) :
    getSavedProjects { s with raw := RawStored.parsed v } = v := by
  simp [getSavedProjects, hr]

theorem saveProject_fresh (s : Storage) (idea : ProjectIdea) (items : List ProjectIdea)
    (hw : s.writeFails = false)
    (hcur : getSavedProjects s = Json.arr (items.map encodeItem))
    (hfresh : idea.id ∉ items.map ProjectIdea.id) :
    saveProject s idea
      = (true, { s with raw := RawStored.parsed (Json.arr ((idea :: items).map encodeItem)) }) := by
  have ha := (any_id_eq_false_iff idea.id items).2 hfresh
  simp [saveProject, hcur, jsSomeIdEq_encoded, ha, hw]

theorem removeProject_encoded (s : Storage) (id : String) (items : List ProjectIdea)
    (hw : s.writeFails = false)
    (hcur : getSavedProjects s = Json.arr (items.map encodeItem)) :
    removeProject s id
      = { s with
          raw := RawStored.parsed
            (Json.arr ((items.filter (fun i => i.id != id)).map encodeItem)) } := by
  simp [removeProject, hcur, jsFilterIdNe_encoded, hw]

theorem jsSomeIdEq_ok_of_no_null (id : String) (elems : List Json)
    (hn : Json.null ∉ elems) : ∃ b, jsSomeIdEq id elems = Except.ok b := by
  induction elems with
  | nil => exact ⟨false, rfl⟩
  | cons p rest ih =>
      have hp : p ≠ Json.null := fun h => hn (h ▸ List.mem_cons_self p rest)
      have hrest : Json.null ∉ rest := fun h => hn (List.mem_cons_of_mem p h)
      have hok : ∃ b, idMatches id p = Except.ok b := by
        cases p with
        | null => exact absurd rfl hp
        | bool b => exact ⟨false, rfl⟩
        | num n => exact ⟨false, rfl⟩
        | str s => exact ⟨false, rfl⟩
        | arr xs => exact ⟨false, rfl⟩
        | obj fields =>
            cases hl : fields.lookup "id" with
            | none => exact ⟨false, by simp [idMatches, hl]⟩
            | some v =>
                cases v with
                | null => exact ⟨false, by simp [idMatches, hl]⟩
                | bool b => exact ⟨false, by simp [idMatches, hl]⟩
                | num n => exact ⟨false, by simp [idMatches, hl]⟩
                | str sv => exact ⟨sv == id, by simp [idMatches, hl]⟩
                | arr xs => exact ⟨false, by simp [idMatches, hl]⟩
                | obj fs => exact ⟨false, by simp [idMatches, hl]⟩
      obtain ⟨b, hb⟩ := hok
      cases b with
      | true => exact ⟨true, by simp [jsSomeIdEq, hb]⟩
      | false =>
          obtain ⟨b', hb'⟩ := ih hrest
          exact ⟨b', by simp [jsSomeIdEq, hb, hb']⟩

/-- C2 counterexample: with the stored raw value `"{}"` — a foreign JSON
value that `JSON.parse` accepts as an empty object — `isProjectSaved`
evaluates `saved.some(...)` on a non-array, and the resulting TypeError
propagates to the caller (there is no `try`/`catch` in `isProjectSaved`). -/
theorem c2_counterexample :
    isProjectSaved ⟨RawStored.parsed (Json.obj []), false, false⟩ "p1"
      = Except.error () := rfl

/-- C2 (amended): `list`, `add`, and `remove` catch internally and never
surface an exception; `isSaved` surfaces none whenever the current read
yields a JSON array free of `null` elements — in particular whenever the
key is absent or empty, the adapter read fails, or the stored value is
unparsable — but it can surface a TypeError when the stored value parses
to a non-array JSON value (or an array holding `null`). -/
theorem c2_amended_no_throw (s : Storage) (id : String) (elems : List Json)
    (hread : getSavedProjects s = Json.arr elems) (hn : Json.null ∉ elems) :
    ∃ b, isProjectSaved s id = Except.ok b := by
  simp only [isProjectSaved, hread]
  exact jsSomeIdEq_ok_of_no_null id elems hn

/-- Witness for the amended C2 at the empty store. -/
theorem c2_amended_no_throw_witness :
    ∃ b, isProjectSaved emptyStore "p1" = Except.ok b :=
  c2_amended_no_throw emptyStore "p1" [] rfl (by simp)

/-- C3 counterexample: the stored raw value `"42"` parses successfully (so
nothing is caught) but is not a valid serialized collection of Items;
`list()` returns the number `42` as-is, not an empty sequence. -/
theorem c3_counterexample :
    getSavedProjects ⟨RawStored.parsed (Json.num 42), false, false⟩ = Json.num 42
    ∧ Json.num 42 ≠ Json.arr [] :=
  ⟨rfl, fun h => Json.noConfusion h⟩

/-- C3 (amended): `list()` returns an empty sequence whenever the key is
absent or holds the empty string, the adapter read fails, or the stored
value fails `JSON.parse`; when the stored value parses successfully,
`list()` returns the parsed value unvalidated — even when it is not a
collection of Items.  It never propagates a read or parse failure, and is
a pure read of the adapter (no write is ever issued). -/
theorem c3_amended_list_fail_open (rf wf : Bool) (v : Json) :
    getSavedProjects ⟨RawStored.absent, rf, wf⟩ = Json.arr []
    ∧ getSavedProjects ⟨RawStored.emptyStr, rf, wf⟩ = Json.arr []
    ∧ getSavedProjects ⟨RawStored.unparsable, rf, wf⟩ = Json.arr []
    ∧ getSavedProjects ⟨RawStored.parsed v, true, wf⟩ = Json.arr []
    ∧ getSavedProjects ⟨RawStored.parsed v, false, wf⟩ = v := by
  cases rf <;> simp [getSavedProjects]

/-- C4: for Items A and B with distinct ids, starting from any collection
containing neither id, `add(A)` then `add(B)` with successful writes makes
`list()` begin with B then A — most-recently-saved first. -/
theorem c4_add_add_most_recent_first (s : Storage) (A B : ProjectIdea)
    (items : List ProjectIdea)
    (hr : s.readFails = false) (hw : s.writeFails = false)
    (hcur : getSavedProjects s = Json.arr (items.map encodeItem))
    (hA : A.id ∉ items.map ProjectIdea.id) (hB : B.id ∉ items.map ProjectIdea.id)
    (hAB : A.id ≠ B.id) :
    getSavedProjects (saveProject (saveProject s A).2 B).2
      = Json.arr (encodeItem B :: encodeItem A :: items.map encodeItem) := by
  have hstep1 :
      (saveProject s A).2
        = { s with raw := RawStored.parsed (Json.arr ((A :: items).map encodeItem)) } := by
    rw [saveProject_fresh s A items hw hcur hA]
  have hcur1 :
      getSavedProjects
          { s with raw := RawStored.parsed (Json.arr ((A :: items).map encodeItem)) }
        = Json.arr ((A :: items).map encodeItem) :=
    getSavedProjects_parsed s _ hr
  have hfresh1 : B.id ∉ (A :: items).map ProjectIdea.id := by
    simp only [List.map_cons, List.mem_cons]
    rintro (h | h)
    · exact hAB h.symm
    · exact hB h
  have hstep2 :
      (saveProject
          { s with raw := RawStored.parsed (Json.arr ((A :: items).map encodeItem)) } B).2
        = { s with raw := RawStored.parsed (Json.arr ((B :: A :: items).map encodeItem)) } := by
    rw [saveProject_fresh
      { s with raw := RawStored.parsed (Json.arr ((A :: items).map encodeItem)) }
      B (A :: items) hw hcur1 hfresh1]
  rw [hstep1, hstep2]
  exact getSavedProjects_parsed _ _ hr

/-- Witness for C4: adding `sampleA` then `sampleB` to the empty store. -/
theorem c4_add_add_most_recent_first_witness :
    getSavedProjects (saveProject (saveProject emptyStore sampleA).2 sampleB).2
      = Json.arr [encodeItem sampleB, encodeItem sampleA] :=
  c4_add_add_most_recent_first emptyStore sampleA sampleB [] rfl rfl rfl
    (by simp) (by simp) (by decide)

/-- C5: adding an Item whose id already occurs exactly once is rejected:
`add` returns `false`, the state is unchanged (no write), and the
collection still holds exactly one id-matching entry. -/
theorem c5_duplicate_add_noop (s : Storage) (idea : ProjectIdea)
    (items : List ProjectIdea)
    (hcur : getSavedProjects s = Json.arr (items.map encodeItem))
    (hone : (items.map ProjectIdea.id).count idea.id = 1) :
    saveProject s idea = (false, s)
    ∧ getSavedProjects (saveProject s idea).2 = Json.arr (items.map encodeItem)
    ∧ ((items.map encodeItem).countP (fun p => idMatchB p idea.id)) = 1 := by
  have hmem : idea.id ∈ items.map ProjectIdea.id := by
    by_contra hno
    rw [List.count_eq_zero_of_not_mem hno] at hone
    exact Nat.noConfusion hone
  have ha : items.any (fun i => i.id == idea.id) = true := by
    rw [any_id_eq_decide_mem]
    exact decide_eq_true hmem
  have h1 : saveProject s idea = (false, s) := by
    simp [saveProject, hcur, jsSomeIdEq_encoded, ha]
  refine ⟨h1, by rw [h1]; exact hcur, ?_⟩
  rw [countP_idMatchB_encoded]
  exact hone

/-- Witness for C5: re-adding `sampleA` right after it was added. -/
theorem c5_duplicate_add_noop_witness :
    saveProject (saveProject emptyStore sampleA).2 sampleA
        = (false, (saveProject emptyStore sampleA).2)
    ∧ getSavedProjects (saveProject (saveProject emptyStore sampleA).2 sampleA).2
        = Json.arr ([sampleA].map encodeItem)
    ∧ (([sampleA].map encodeItem).countP (fun p => idMatchB p sampleA.id)) = 1 :=
  c5_duplicate_add_noop (saveProject emptyStore sampleA).2 sampleA [sampleA] rfl (by decide)

/-- C6: `remove(id)` replaces the collection with the prior collection
filtered to exclude every id-matching Item, preserving the relative order
of the rest, and writes unconditionally (even when nothing matched); a
remove of an absent id leaves `list()` unchanged in set and order. -/
theorem c6_remove_filters_unconditional_write (s : Storage) (id : String)
    (items : List ProjectIdea)
    (hw : s.writeFails = false)
    (hcur : getSavedProjects s = Json.arr (items.map encodeItem)) :
    removeProject s id
      = { s with
          raw := RawStored.parsed
            (Json.arr ((items.filter (fun i => i.id != id)).map encodeItem)) }
    ∧ (id ∉ items.map ProjectIdea.id →
        getSavedProjects (removeProject s id) = getSavedProjects s) := by
  have h1 := removeProject_encoded s id items hw hcur
  refine ⟨h1, fun hno => ?_⟩
  have hfil : items.filter (fun i => i.id != id) = items := by
    rw [List.filter_eq_self]
    intro i hi
    have hne : i.id ≠ id := fun he => hno (he ▸ List.mem_map_of_mem ProjectIdea.id hi)
    simpa [bne] using hne
  rw [h1, hfil]
  by_cases hr : s.readFails
  · simp [getSavedProjects, hr]
  · have hr' : s.readFails = false := by simpa using hr
    rw [getSavedProjects_parsed s _ hr', hcur]

/-- Witness for C6: removing the absent id `"zz"` after adding `sampleA`. -/
theorem c6_remove_filters_unconditional_write_witness :
    removeProject (saveProject emptyStore sampleA).2 "zz"
      = { (saveProject emptyStore sampleA).2 with
          raw := RawStored.parsed
            (Json.arr (([sampleA].filter (fun i => i.id != "zz")).map encodeItem)) }
    ∧ ("zz" ∉ [sampleA].map ProjectIdea.id →
        getSavedProjects (removeProject (saveProject emptyStore sampleA).2 "zz")
          = getSavedProjects (saveProject emptyStore sampleA).2) :=
  c6_remove_filters_unconditional_write (saveProject emptyStore sampleA).2 "zz" [sampleA]
    rfl rfl

/-- C7: on a collection of Items, `isSaved(id)` returns true iff an Item
with that id is present (it performs no mutation — it is a pure read);
consequently it is true immediately after a successful `add` of an Item
with that id, and false immediately after `remove(id)`. -/
theorem c7_isSaved_iff_present (s : Storage) (id : String) (idea : ProjectIdea)
    (items : List ProjectIdea)
    (hr : s.readFails = false) (hw : s.writeFails = false)
    (hcur : getSavedProjects s = Json.arr (items.map encodeItem)) :
    isProjectSaved s id = Except.ok (decide (id ∈ items.map ProjectIdea.id))
    ∧ (idea.id ∉ items.map ProjectIdea.id →
        (saveProject s idea).1 = true
        ∧ isProjectSaved (saveProject s idea).2 idea.id = Except.ok true)
    ∧ isProjectSaved (removeProject s id) id = Except.ok false := by
  refine ⟨?_, fun hfresh => ?_, ?_⟩
  · simp [isProjectSaved, hcur, jsSomeIdEq_encoded, any_id_eq_decide_mem]
  · have hstep : (saveProject s idea).2
        = { s with raw := RawStored.parsed (Json.arr (encodeItem idea :: items.map encodeItem)) } := by
      rw [saveProject_fresh s idea items hw hcur hfresh]
      rfl
    refine ⟨by rw [saveProject_fresh s idea items hw hcur hfresh], ?_⟩
    rw [hstep]
    have hg := getSavedProjects_parsed s (Json.arr (encodeItem idea :: items.map encodeItem)) hr
    simp [isProjectSaved, hg, jsSomeIdEq, idMatches_encodeItem]
  · rw [removeProject_encoded s id items hw hcur]
    have hg := getSavedProjects_parsed s
      (Json.arr ((items.filter (fun i => i.id != id)).map encodeItem)) hr
    have hnone : (items.filter (fun i => i.id != id)).any (fun i => i.id == id) = false := by
      rw [List.any_eq_false]
      intro i hi
      have hkeep := List.of_mem_filter hi
      simp only [bne_iff_ne] at hkeep
      simp [hkeep]
    simp [isProjectSaved, hg, jsSomeIdEq_encoded, hnone]

/-- Witness for C7 at the one-item state reached by adding `sampleA`. -/
theorem c7_isSaved_iff_present_witness :
    isProjectSaved (saveProject emptyStore sampleA).2 "p1"
        = Except.ok (decide ("p1" ∈ [sampleA].map ProjectIdea.id))
    ∧ (sampleB.id ∉ [sampleA].map ProjectIdea.id →
        (saveProject (saveProject emptyStore sampleA).2 sampleB).1 = true
        ∧ isProjectSaved (saveProject (saveProject emptyStore sampleA).2 sampleB).2 sampleB.id
            = Except.ok true)
    ∧ isProjectSaved (removeProject (saveProject emptyStore sampleA).2 "p1") "p1"
        = Except.ok false :=
  c7_isSaved_iff_present (saveProject emptyStore sampleA).2 "p1" sampleB [sampleA]
    rfl rfl rfl

/-- C8: for every valid collection of Items, a write of its serialized form
followed by `list()` reconstructs an equal ordered sequence of Items — the
serialized form round-trips losslessly. -/
theorem c8_serialization_roundtrip (s : Storage) (items : List ProjectIdea)
    (hr : s.readFails = false) :
    getSavedProjects { s with raw := RawStored.parsed (Json.arr (items.map encodeItem)) }
      = Json.arr (items.map encodeItem)
    ∧ decodeItems
        (getSavedProjects
          { s with raw := RawStored.parsed (Json.arr (items.map encodeItem)) })
      = some items := by
  have h := getSavedProjects_parsed s (Json.arr (items.map encodeItem)) hr
  exact ⟨h, by rw [h]; exact decodeItems_encoded items⟩

/-- Witness for C8 with the two-element collection `[sampleB, sampleA]`. -/
theorem c8_serialization_roundtrip_witness :
    getSavedProjects
        { emptyStore with
          raw := RawStored.parsed (Json.arr ([sampleB, sampleA].map encodeItem)) }
      = Json.arr ([sampleB, sampleA].map encodeItem)
    ∧ decodeItems
        (getSavedProjects
          { emptyStore with
            raw := RawStored.parsed (Json.arr ([sampleB, sampleA].map encodeItem)) })
      = some [sampleB, sampleA] :=
  c8_serialization_roundtrip emptyStore [sampleB, sampleA] rfl

/-- C9: for a fresh Item, `add` returns true exactly when the adapter write
succeeds and false when it fails, with no rollback: a failed write leaves
the state exactly as it was, and after a successful write `list()` shows
the prepended collection — in both cases `list()` reflects what the
adapter actually persisted. -/
theorem c9_add_reports_write_outcome (s : Storage) (idea : ProjectIdea)
    (items : List ProjectIdea)
    (hr : s.readFails = false)
    (hcur : getSavedProjects s = Json.arr (items.map encodeItem))
    (hfresh : idea.id ∉ items.map ProjectIdea.id) :
    (saveProject s idea).1 = !s.writeFails
    ∧ (s.writeFails = true → (saveProject s idea).2 = s)
    ∧ (s.writeFails = false →
        getSavedProjects (saveProject s idea).2
          = Json.arr (encodeItem idea :: items.map encodeItem)) := by
  have ha := (any_id_eq_false_iff idea.id items).2 hfresh
  cases hw : s.writeFails with
  | true =>
      have h1 : saveProject s idea = (false, s) := by
        simp [saveProject, hcur, jsSomeIdEq_encoded, ha, hw]
      exact ⟨by rw [h1]; rfl, fun _ => by rw [h1], fun hc => Bool.noConfusion hc⟩
  | false =>
      have hstep : (saveProject s idea).2
          = { s with raw := RawStored.parsed (Json.arr ((idea :: items).map encodeItem)) } := by
        rw [saveProject_fresh s idea items hw hcur hfresh]
      refine ⟨by rw [saveProject_fresh s idea items hw hcur hfresh]; rfl,
        fun hc => Bool.noConfusion hc, fun _ => ?_⟩
      rw [hstep]
      exact getSavedProjects_parsed s _ hr

/-- Witness for C9: adding `sampleA` to the empty store. -/
theorem c9_add_reports_write_outcome_witness :
    (saveProject emptyStore sampleA).1 = !emptyStore.writeFails
    ∧ (emptyStore.writeFails = true → (saveProject emptyStore sampleA).2 = emptyStore)
    ∧ (emptyStore.writeFails = false →
        getSavedProjects (saveProject emptyStore sampleA).2
          = Json.arr (encodeItem sampleA :: [].map encodeItem)) :=
  c9_add_reports_write_outcome emptyStore sampleA [] rfl rfl (by simp)

/-- C10 (frame): a successful `add` of an Item whose id is not present
prepends the new entry and leaves every previously stored entry in place,
with identical payload and in the same relative order: afterwards `list()`
is exactly the new entry followed by the prior entries, verbatim. -/
theorem c10_add_preserves_prior_entries (s : Storage) (idea : ProjectIdea)
    (elems : List Json)
    (hr : s.readFails = false) (hw : s.writeFails = false)
    (hcur : getSavedProjects s = Json.arr elems)
    (hnot : jsSomeIdEq idea.id elems = Except.ok false) :
    (saveProject s idea).1 = true
    ∧ getSavedProjects (saveProject s idea).2 = Json.arr (encodeItem idea :: elems) := by
  have h1 : saveProject s idea
      = (true, { s with raw := RawStored.parsed (Json.arr (encodeItem idea :: elems)) }) := by
    simp [saveProject, hcur, hnot, hw]
  have h2 : (saveProject s idea).2
      = { s with raw := RawStored.parsed (Json.arr (encodeItem idea :: elems)) } := by
    rw [h1]
  refine ⟨by rw [h1], ?_⟩
  rw [h2]
  exact getSavedProjects_parsed s _ hr

/-- Witness for C10: adding `sampleB` on top of the entry left by adding
`sampleA`. -/
theorem c10_add_preserves_prior_entries_witness :
    (saveProject (saveProject emptyStore sampleA).2 sampleB).1 = true
    ∧ getSavedProjects (saveProject (saveProject emptyStore sampleA).2 sampleB).2
        = Json.arr (encodeItem sampleB :: [encodeItem sampleA]) :=
  c10_add_preserves_prior_entries (saveProject emptyStore sampleA).2 sampleB
    [encodeItem sampleA] rfl rfl rfl rfl

end NeuroScout
